import Mathlib

/-!
Shallow embedding of the TOTP library (`src/index.ts`): the Base32 codec
(`stringToBase32`, `base32Decode`), the HOTP/TOTP pipeline
(`generateHMAC`, `generateTOTP`) and the verifier (`verifyTOTP`).

Conventions of the embedding:
* JS strings are `List Char`; `Uint8Array` and generic byte sequences are
  `List Nat` with every element `< 256`.
* The HMAC-SHA1 primitive is external to the core; it is passed in as a
  black-box parameter `hmacFn : List Nat → List Nat → List Nat`
  (key, message ↦ 20-byte digest), exactly as the design treats it.
* A thrown `Error` is modelled as `none`; a normal return as `some _`.
* JS `number` timestamps/counters are non-negative integers, modelled as `Nat`.
* The source builds bit streams as strings of `'0'`/`'1'` characters
  (`toString(2)`, `padStart`, `padEnd`, `parseInt(_, 2)`); these are
  modelled as `List Bool`, most significant bit first.
-/

namespace TOTP

/-- `n.toString(2).padStart(width, '0')` for `n < 2 ^ width`: the `width`-bit
big-endian binary rendering of `n` (of `n % 2 ^ width` in general). -/
def natToBits : Nat → Nat → List Bool
  | 0, _ => []
  | w + 1, n => natToBits w (n / 2) ++ [decide (n % 2 = 1)]

/-- `parseInt(s, 2)` on a string of `'0'`/`'1'` characters: read the bits,
most significant first, as a binary numeral (a short string is NOT
left-shifted to any fixed width). -/
def bitsToNat (bs : List Bool) : Nat :=
  bs.foldl (fun a b => 2 * a + (if b then 1 else 0)) 0

/-- The RFC 4648 alphabet string used by both encoder and decoder. -/
def base32Alphabet : List Char := "ABCDEFGHIJKLMNOPQRSTUVWXYZ234567".data

/-- The encoder loop of `stringToBase32`: group the bit stream by 5
(`bits.slice(i, i + 5).padEnd(5, '0')`), map each group through the
alphabet. -/
def encodeChars : List Bool → List Char
  | b1 :: b2 :: b3 :: b4 :: b5 :: rest =>
      base32Alphabet.getD (bitsToNat [b1, b2, b3, b4, b5]) '?' :: encodeChars rest
  | [] => []
  | rest => [base32Alphabet.getD (bitsToNat (rest ++ List.replicate (5 - rest.length) false)) '?']

/-- `stringToBase32` from `src/index.ts`, taken from the point where the
input has been turned into its byte array (`new TextEncoder().encode(text)`
is the UTF-8 front end, outside the bit-level codec): each byte contributes
8 bits, groups of 5 bits are mapped through the alphabet, and `'='` is
appended until the length is a multiple of 8. -/
def stringToBase32 (byteArray : List Nat) : List Char :=
  let bits := byteArray.flatMap (natToBits 8)
  let output := encodeChars bits
  output ++ List.replicate ((8 - output.length % 8) % 8) '='

/-- The `base32Lookup` object literal of `base32Decode`. -/
def base32Lookup (c : Char) : Option Nat :=
  if c = 'A' then some 0 else if c = 'B' then some 1 else if c = 'C' then some 2
  else if c = 'D' then some 3 else if c = 'E' then some 4 else if c = 'F' then some 5
  else if c = 'G' then some 6 else if c = 'H' then some 7 else if c = 'I' then some 8
  else if c = 'J' then some 9 else if c = 'K' then some 10 else if c = 'L' then some 11
  else if c = 'M' then some 12 else if c = 'N' then some 13 else if c = 'O' then some 14
  else if c = 'P' then some 15 else if c = 'Q' then some 16 else if c = 'R' then some 17
  else if c = 'S' then some 18 else if c = 'T' then some 19 else if c = 'U' then some 20
  else if c = 'V' then some 21 else if c = 'W' then some 22 else if c = 'X' then some 23
  else if c = 'Y' then some 24 else if c = 'Z' then some 25 else if c = '2' then some 26
  else if c = '3' then some 27 else if c = '4' then some 28 else if c = '5' then some 29
  else if c = '6' then some 30 else if c = '7' then some 31 else none

/-- JS truthiness of `base32Lookup[c]`: the guard `if (!val)` fires both when
the property is absent (`undefined`) and when the looked-up value is the
number `0`. -/
def jsFalsy : Option Nat → Bool
  | none => true
  | some v => v = 0

/-- `base32.replace(/=+$/, '')`: remove the maximal trailing run of `'='`. -/
def stripTrailingEquals (s : List Char) : List Char :=
  ((s.reverse.dropWhile (fun c => c = '=')).reverse)

/-- The character loop of `base32Decode`: for each character, look up
`base32[i].toUpperCase()` in the table and throw (`none`) when the result
is falsy — which happens both for characters outside the alphabet and for
`'A'`, whose value `0` is falsy. On success, collect the 5-bit values. -/
def decodeVals : List Char → Option (List Nat)
  | [] => some []
  | c :: rest =>
      let val := base32Lookup c.toUpper
      if jsFalsy val then none
      else (decodeVals rest).map (fun l => val.getD 0 :: l)

/-- The output loop of `base32Decode`: `for (i = 0; i < bits.length; i += 8)
output.push(parseInt(bits.slice(i, i + 8), 2))`. A final slice shorter than
8 bits is still parsed (as a small binary numeral) and pushed. -/
def groupBytes : List Bool → List Nat
  | b1 :: b2 :: b3 :: b4 :: b5 :: b6 :: b7 :: b8 :: rest =>
      bitsToNat [b1, b2, b3, b4, b5, b6, b7, b8] :: groupBytes rest
  | [] => []
  | [b1] => [bitsToNat [b1]]
  | [b1, b2] => [bitsToNat [b1, b2]]
  | [b1, b2, b3] => [bitsToNat [b1, b2, b3]]
  | [b1, b2, b3, b4] => [bitsToNat [b1, b2, b3, b4]]
  | [b1, b2, b3, b4, b5] => [bitsToNat [b1, b2, b3, b4, b5]]
  | [b1, b2, b3, b4, b5, b6] => [bitsToNat [b1, b2, b3, b4, b5, b6]]
  | [b1, b2, b3, b4, b5, b6, b7] => [bitsToNat [b1, b2, b3, b4, b5, b6, b7]]

/-- `base32Decode` from `src/index.ts`: strip trailing `'='`, look up each
remaining character (upper-cased) with the falsy guard, concatenate the
5-bit values and read the stream off in 8-bit slices. -/
def base32Decode (base32 : List Char) : Option (List Nat) :=
  (decodeVals (stripTrailingEquals base32)).map
    (fun vals => groupBytes (vals.flatMap (natToBits 5)))

/-- The counter-serialization loop of `generateHMAC`: for `i = 7 .. 0`,
`counterArray[i] = counter % 256; counter = Math.floor(counter / 256)`.
`counterBytesAux w c` is the last `w` bytes; the full array is `w = 8`. -/
def counterBytesAux : Nat → Nat → List Nat
  | 0, _ => []
  | w + 1, c => counterBytesAux w (c / 256) ++ [c % 256]

/-- The 8-byte big-endian counter array built by `generateHMAC`. -/
def counterToBytes (counter : Nat) : List Nat :=
  counterBytesAux 8 counter

/-- `generateHMAC` from `src/index.ts`: serialize the counter to 8 bytes and
invoke the external HMAC-SHA1 primitive (`crypto.subtle`) on the key and
that message; the primitive is the black-box parameter `hmacFn`. -/
def generateHMAC (hmacFn : List Nat → List Nat → List Nat)
    (key : List Nat) (counter : Nat) : List Nat :=
  hmacFn key (counterToBytes counter)

/-- The dynamic-truncation block of `generateTOTP`:
`offset = hmac[hmac.length - 1] % 16` and
`binary = (hmac[offset] % 128) * 256 ** 3 + (hmac[offset+1] % 256) * 256 ** 2
 + (hmac[offset+2] % 256) * 256 + (hmac[offset+3] % 256)`. -/
def dynamicTruncate (hmac : List Nat) : Nat :=
  let offset := hmac.getD (hmac.length - 1) 0 % 16
  (hmac.getD (offset + 0) 0 % 128) * 256 ^ 3 +
    (hmac.getD (offset + 1) 0 % 256) * 256 ^ 2 +
    (hmac.getD (offset + 2) 0 % 256) * 256 ^ 1 +
    (hmac.getD (offset + 3) 0 % 256) * 256 ^ 0

/-- `n.toString()` (decimal) on a non-negative integer, with enough fuel:
a number below 10 is a single digit, otherwise render `n / 10` and append
the digit of `n % 10`. The fuel argument only bounds the recursion and is
never exhausted when it exceeds `n`. -/
def natDecimalAux : Nat → Nat → List Char
  | 0, _ => []
  | fuel + 1, n =>
      if n < 10 then [Nat.digitChar n]
      else natDecimalAux fuel (n / 10) ++ [Nat.digitChar (n % 10)]

/-- `otp.toString()`: decimal rendering of a `Nat`. -/
def natToDecimal (n : Nat) : List Char :=
  natDecimalAux (n + 1) n

/-- `s.padStart(6, '0')`: prepend `'0'` until the length is 6 (a string
already of length ≥ 6 is unchanged, since `6 - length = 0` on `Nat`). -/
def padStart6 (s : List Char) : List Char :=
  List.replicate (6 - s.length) '0' ++ s

/-- `generateTOTP` from `src/index.ts`, with the HMAC-SHA1 primitive passed
in as `hmacFn`: decode the secret (propagating the decode error), derive
`counter = Math.floor(timestamp / (1000 * 30))`, run HMAC, dynamically
truncate, reduce mod 1 000 000 and zero-pad to 6 digits. -/
def generateTOTP (hmacFn : List Nat → List Nat → List Nat)
    (secret : List Char) (timestamp : Nat) : Option (List Char) :=
  match base32Decode secret with
  | none => none
  | some key =>
      let counter := timestamp / (1000 * 30)
      let hmac := generateHMAC hmacFn key counter
      let otp := dynamicTruncate hmac % 1000000
      some (padStart6 (natToDecimal otp))

/-- `verifyTOTP` from `src/index.ts`: generate and compare for string
equality (`===`); a decode error propagates, a mismatch is just `false`. -/
def verifyTOTP (hmacFn : List Nat → List Nat → List Nat)
    (secret userToken : List Char) (timestamp : Nat) : Option Bool :=
  (generateTOTP hmacFn secret timestamp).map (fun generatedToken => generatedToken = userToken)

/-- Modelled from the spec (for comparison with `groupBytes`, not part of
the source): "partitions into 8-bit groups, and discards any final group
shorter than 8 bits" — only the complete 8-bit groups become bytes. -/
def specCompleteByteGroups : List Bool → List Nat
  | b1 :: b2 :: b3 :: b4 :: b5 :: b6 :: b7 :: b8 :: rest =>
      bitsToNat [b1, b2, b3, b4, b5, b6, b7, b8] :: specCompleteByteGroups rest
  | [] => []
  | [_] => []
  | [_, _] => []
  | [_, _, _] => []
  | [_, _, _, _] => []
  | [_, _, _, _, _] => []
  | [_, _, _, _, _, _] => []
  | [_, _, _, _, _, _, _] => []

/-! ### Helper lemmas -/

theorem generateTOTP_eq (hmacFn : List Nat → List Nat → List Nat)
    (secret : List Char) (timestamp : Nat) :
    generateTOTP hmacFn secret timestamp =
      (base32Decode secret).map (fun key =>
        padStart6 (natToDecimal
          (dynamicTruncate (generateHMAC hmacFn key (timestamp / (1000 * 30))) % 1000000))) := by
  unfold generateTOTP
  cases base32Decode secret <;> rfl

theorem digitChar_isDigit (d : Nat) (hd : d < 10) : (Nat.digitChar d).isDigit = true := by
  interval_cases d <;> decide

theorem natDecimalAux_length_le (fuel n k : Nat) (hk : 1 ≤ k) (hn : n < 10 ^ k) :
    (natDecimalAux fuel n).length ≤ k := by
  induction fuel generalizing n k with
  | zero => simp [natDecimalAux]
  | succ fuel ih =>
      rw [natDecimalAux]
      by_cases h10 : n < 10
      · simp [h10]; omega
      · have hk2 : 2 ≤ k := by
          by_contra hcon
          have : k = 1 := by omega
          subst this
          simp at hn
          omega
        have hdiv : n / 10 < 10 ^ (k - 1) := by
          have : 10 ^ k = 10 ^ (k - 1) * 10 := by
            conv_lhs => rw [show k = (k - 1) + 1 by omega]
            rw [pow_succ]
          rw [Nat.div_lt_iff_lt_mul (by norm_num)]
          omega
        have := ih (n / 10) (k - 1) (by omega) hdiv
        simp [h10, List.length_append]
        omega

theorem natDecimalAux_isDigit (fuel n : Nat) (c : Char) (hc : c ∈ natDecimalAux fuel n) :
    c.isDigit = true := by
  induction fuel generalizing n with
  | zero => simp [natDecimalAux] at hc
  | succ fuel ih =>
      rw [natDecimalAux] at hc
      by_cases h10 : n < 10
      · simp [h10] at hc
        subst hc
        exact digitChar_isDigit n h10
      · simp [h10] at hc
        rcases hc with hc | hc
        · exact ih (n / 10) hc
        · subst hc
          exact digitChar_isDigit (n % 10) (Nat.mod_lt _ (by norm_num))

theorem padStart6_length (s : List Char) (hs : s.length ≤ 6) : (padStart6 s).length = 6 := by
  simp [padStart6]
  omega

/-- The code the generator returns: always the zero-padded rendering of a
value below one million. -/
theorem generate_code_shape (hmacFn : List Nat → List Nat → List Nat)
    (secret code : List Char) (timestamp : Nat)
    (h : generateTOTP hmacFn secret timestamp = some code) :
    ∃ key, base32Decode secret = some key ∧
      code = padStart6 (natToDecimal
        (dynamicTruncate (generateHMAC hmacFn key (timestamp / (1000 * 30))) % 1000000)) := by
  rw [generateTOTP_eq] at h
  cases hdec : base32Decode secret with
  | none => rw [hdec] at h; simp at h
  | some key =>
      rw [hdec] at h
      simp at h
      exact ⟨key, rfl, h.symm⟩

theorem generate_code_length (hmacFn : List Nat → List Nat → List Nat)
    (secret code : List Char) (timestamp : Nat)
    (h : generateTOTP hmacFn secret timestamp = some code) :
    code.length = 6 := by
  obtain ⟨key, -, hcode⟩ := generate_code_shape hmacFn secret code timestamp h
  subst hcode
  apply padStart6_length
  apply natDecimalAux_length_le _ _ 6 (by norm_num)
  simp only [show (10 : Nat) ^ 6 = 1000000 by norm_num]
  exact Nat.mod_lt _ (by norm_num)

theorem decodeVals_eq_none_of_mem (l : List Char) (c : Char) (hc : c ∈ l)
    (hfalsy : jsFalsy (base32Lookup c.toUpper) = true) : decodeVals l = none := by
  induction l with
  | nil => simp at hc
  | cons a rest ih =>
      rw [decodeVals]
      rcases List.mem_cons.mp hc with rfl | hmem
      · simp [hfalsy]
      · by_cases ha : jsFalsy (base32Lookup a.toUpper) = true
        · simp [ha]
        · simp only [Bool.not_eq_true] at ha
          simp [ha, ih hmem]

theorem groupBytes_eq_spec_append (l : List Bool) :
    groupBytes l = specCompleteByteGroups l ++
      (if l.length % 8 = 0 then [] else [bitsToNat (l.drop (8 * (l.length / 8)))]) := by
  induction l using groupBytes.induct with
  | case1 b1 b2 b3 b4 b5 b6 b7 b8 rest ih =>
      rw [groupBytes, specCompleteByteGroups, ih]
      have hlen : (b1 :: b2 :: b3 :: b4 :: b5 :: b6 :: b7 :: b8 :: rest).length =
          rest.length + 8 := by simp
      rw [hlen]
      have hmod : (rest.length + 8) % 8 = rest.length % 8 := by omega
      have hdivi : (rest.length + 8) / 8 = rest.length / 8 + 1 := by omega
      rw [hmod, hdivi]
      by_cases h8 : rest.length % 8 = 0
      · simp [h8]
      · have hdrop : (b1 :: b2 :: b3 :: b4 :: b5 :: b6 :: b7 :: b8 :: rest).drop
            (8 * (rest.length / 8 + 1)) = rest.drop (8 * (rest.length / 8)) := by
          rw [show 8 * (rest.length / 8 + 1) = 8 * (rest.length / 8) + 8 by ring]
          rfl
        simp [h8, hdrop]
  | case2 => rfl
  | case3 b1 => simp [groupBytes, specCompleteByteGroups]
  | case4 b1 b2 => simp [groupBytes, specCompleteByteGroups]
  | case5 b1 b2 b3 => simp [groupBytes, specCompleteByteGroups]
  | case6 b1 b2 b3 b4 => simp [groupBytes, specCompleteByteGroups]
  | case7 b1 b2 b3 b4 b5 => simp [groupBytes, specCompleteByteGroups]
  | case8 b1 b2 b3 b4 b5 b6 => simp [groupBytes, specCompleteByteGroups]
  | case9 b1 b2 b3 b4 b5 b6 b7 => simp [groupBytes, specCompleteByteGroups]

/-! ### Claim theorems -/

/-- C1: the claim says decoding fails only on characters outside the
alphabet and that an input containing `'A'` succeeds with value 0. The code
evaluated at the failing input `"AB"` shows the opposite: `'A'` is in the
lookup table with value 0, `"AB"` contains no out-of-alphabet character,
yet `base32Decode` throws, because the guard `if (!val)` treats the looked
up value 0 exactly like a failed lookup. -/
theorem c1_decode_rejects_A :
    base32Lookup 'A' = some 0 ∧
    (∀ c ∈ ['A', 'B'], (base32Lookup c).isSome = true) ∧
    base32Decode ['A', 'B'] = none := by
  decide

/-- C2 counterexample: for input `"ME"` the 5-bit values are 12 and 4,
giving the 10-bit stream `0110000100`; the single complete 8-bit group is
`01100001 = 97`, so the claim says the result is `[97]`. The code instead
also parses the leftover 2-bit slice `00` and pushes it, returning
`[97, 0]`. -/
theorem c2_counterexample :
    base32Decode ['M', 'E'] = some [97, 0] ∧
    specCompleteByteGroups (([12, 4] : List Nat).flatMap (natToBits 5)) = [97] ∧
    base32Decode ['M', 'E'] ≠
      some (specCompleteByteGroups (([12, 4] : List Nat).flatMap (natToBits 5))) := by
  decide

/-- C2 amended: the final group shorter than 8 bits is NOT discarded.
Whenever the character loop succeeds with 5-bit values `vals`, the decoder
returns the complete 8-bit groups of the bit stream followed — when the bit
count is not a multiple of 8 — by one extra byte holding the leftover slice
parsed as a binary numeral of its own (not left-shifted to byte width). No
error is raised for the short group. -/
theorem c2_amended_trailing_group_kept (s : List Char) (vals : List Nat)
    (h : decodeVals (stripTrailingEquals s) = some vals) :
    base32Decode s =
      some (specCompleteByteGroups (vals.flatMap (natToBits 5)) ++
        (if (vals.flatMap (natToBits 5)).length % 8 = 0 then []
         else [bitsToNat ((vals.flatMap (natToBits 5)).drop
                (8 * ((vals.flatMap (natToBits 5)).length / 8)))])) := by
  unfold base32Decode
  rw [h]
  simp only [Option.map_some']
  rw [groupBytes_eq_spec_append]

theorem c2_amended_trailing_group_kept_witness :
    decodeVals (stripTrailingEquals ['M', 'E']) = some [12, 4] ∧
    base32Decode ['M', 'E'] =
      some (specCompleteByteGroups (([12, 4] : List Nat).flatMap (natToBits 5)) ++
        (if (([12, 4] : List Nat).flatMap (natToBits 5)).length % 8 = 0 then []
         else [bitsToNat ((([12, 4] : List Nat).flatMap (natToBits 5)).drop
                (8 * ((([12, 4] : List Nat).flatMap (natToBits 5)).length / 8)))])) :=
  ⟨by decide, c2_amended_trailing_group_kept ['M', 'E'] [12, 4] (by decide)⟩

/-- C3: the claim says every byte sequence of length a multiple of 5
round-trips through encode/decode with no error. The code evaluated at the
failing input `[0, 0, 0, 0, 0]` shows otherwise: the encoding is
`"AAAAAAAA"`, and decoding it throws, because each `'A'` looks up the falsy
value 0 and the guard `if (!val)` treats it as a failed lookup. -/
theorem c3_roundtrip_fails_on_zero_bytes :
    stringToBase32 [0, 0, 0, 0, 0] = ['A', 'A', 'A', 'A', 'A', 'A', 'A', 'A'] ∧
    base32Decode (stringToBase32 [0, 0, 0, 0, 0]) = none := by
  decide

theorem getD_lt_of_forall (digest : List Nat) (hb : ∀ b ∈ digest, b < 256)
    (i : Nat) (hi : i < digest.length) : digest.getD i 0 < 256 := by
  rw [List.getD_eq_getElem?_getD, List.getElem?_eq_getElem hi]
  exact hb _ (List.getElem_mem hi)

/-- C4: dynamic truncation. For every 20-byte digest, the offset is the low
4 bits of the last byte (`digest[19] mod 16`, so ≤ 15 and `offset + 3 ≤ 19`),
the truncated value is the 31-bit combination in which the first selected
byte is masked with `&&& 127` (the code's `% 128`, identical on unsigned
bytes) while the other three bytes enter as full 0–255 values, and the
value always fits in 31 bits. -/
theorem c4_dynamic_truncation (digest : List Nat) (hl : digest.length = 20)
    (hb : ∀ b ∈ digest, b < 256) :
    digest.getD (digest.length - 1) 0 % 16 = digest.getD 19 0 % 16 ∧
    digest.getD 19 0 % 16 ≤ 15 ∧
    digest.getD 19 0 % 16 + 3 ≤ 19 ∧
    dynamicTruncate digest =
      (digest.getD (digest.getD 19 0 % 16) 0 &&& 127) * 2 ^ 24 +
        digest.getD (digest.getD 19 0 % 16 + 1) 0 * 2 ^ 16 +
        digest.getD (digest.getD 19 0 % 16 + 2) 0 * 2 ^ 8 +
        digest.getD (digest.getD 19 0 % 16 + 3) 0 ∧
    dynamicTruncate digest < 2 ^ 31 := by
  have h19 : digest.length - 1 = 19 := by omega
  have hofs : digest.getD 19 0 % 16 < 16 := Nat.mod_lt _ (by norm_num)
  have hval : dynamicTruncate digest =
      digest.getD (digest.getD 19 0 % 16) 0 % 128 * 256 ^ 3 +
        digest.getD (digest.getD 19 0 % 16 + 1) 0 % 256 * 256 ^ 2 +
        digest.getD (digest.getD 19 0 % 16 + 2) 0 % 256 * 256 ^ 1 +
        digest.getD (digest.getD 19 0 % 16 + 3) 0 % 256 * 256 ^ 0 := by
    simp only [dynamicTruncate, h19, Nat.add_zero]
  have hmask : digest.getD (digest.getD 19 0 % 16) 0 &&& 127 =
      digest.getD (digest.getD 19 0 % 16) 0 % 128 := by
    have := Nat.and_pow_two_sub_one_eq_mod (digest.getD (digest.getD 19 0 % 16) 0) 7
    simp only [show (2 : Nat) ^ 7 = 128 from by norm_num,
      show (128 : Nat) - 1 = 127 from by norm_num] at this
    exact this
  have hb1 : digest.getD (digest.getD 19 0 % 16 + 1) 0 < 256 :=
    getD_lt_of_forall digest hb _ (by omega)
  have hb2 : digest.getD (digest.getD 19 0 % 16 + 2) 0 < 256 :=
    getD_lt_of_forall digest hb _ (by omega)
  have hb3 : digest.getD (digest.getD 19 0 % 16 + 3) 0 < 256 :=
    getD_lt_of_forall digest hb _ (by omega)
  refine ⟨by rw [h19], by omega, by omega, ?_, ?_⟩
  · rw [hval, hmask, Nat.mod_eq_of_lt hb1, Nat.mod_eq_of_lt hb2, Nat.mod_eq_of_lt hb3]
    norm_num
  · rw [hval]
    have hm0 : digest.getD (digest.getD 19 0 % 16) 0 % 128 < 128 :=
      Nat.mod_lt _ (by norm_num)
    have hm1 : digest.getD (digest.getD 19 0 % 16 + 1) 0 % 256 < 256 :=
      Nat.mod_lt _ (by norm_num)
    have hm2 : digest.getD (digest.getD 19 0 % 16 + 2) 0 % 256 < 256 :=
      Nat.mod_lt _ (by norm_num)
    have hm3 : digest.getD (digest.getD 19 0 % 16 + 3) 0 % 256 < 256 :=
      Nat.mod_lt _ (by norm_num)
    simp only [show (256 : Nat) ^ 3 = 16777216 by norm_num,
      show (256 : Nat) ^ 2 = 65536 by norm_num, show (256 : Nat) ^ 1 = 256 by norm_num,
      show (256 : Nat) ^ 0 = 1 by norm_num, show (2 : Nat) ^ 31 = 2147483648 by norm_num]
    omega

theorem c4_dynamic_truncation_witness :
    (List.replicate 20 (0 : Nat)).length = 20 ∧
    (∀ b ∈ List.replicate 20 (0 : Nat), b < 256) ∧
    ((List.replicate 20 (0 : Nat)).getD ((List.replicate 20 (0 : Nat)).length - 1) 0 % 16 =
        (List.replicate 20 (0 : Nat)).getD 19 0 % 16 ∧
      (List.replicate 20 (0 : Nat)).getD 19 0 % 16 ≤ 15 ∧
      (List.replicate 20 (0 : Nat)).getD 19 0 % 16 + 3 ≤ 19 ∧
      dynamicTruncate (List.replicate 20 (0 : Nat)) =
        ((List.replicate 20 (0 : Nat)).getD
              ((List.replicate 20 (0 : Nat)).getD 19 0 % 16) 0 &&& 127) * 2 ^ 24 +
          (List.replicate 20 (0 : Nat)).getD
              ((List.replicate 20 (0 : Nat)).getD 19 0 % 16 + 1) 0 * 2 ^ 16 +
          (List.replicate 20 (0 : Nat)).getD
              ((List.replicate 20 (0 : Nat)).getD 19 0 % 16 + 2) 0 * 2 ^ 8 +
          (List.replicate 20 (0 : Nat)).getD
              ((List.replicate 20 (0 : Nat)).getD 19 0 % 16 + 3) 0 ∧
      dynamicTruncate (List.replicate 20 (0 : Nat)) < 2 ^ 31) :=
  ⟨by decide, by decide,
    c4_dynamic_truncation (List.replicate 20 0) (by decide) (by decide)⟩

theorem counterToBytes_eq (c : Nat) :
    counterToBytes c = [c / 256 ^ 7 % 256, c / 256 ^ 6 % 256, c / 256 ^ 5 % 256,
      c / 256 ^ 4 % 256, c / 256 ^ 3 % 256, c / 256 ^ 2 % 256, c / 256 % 256, c % 256] := by
  simp [counterToBytes, counterBytesAux, Nat.div_div_eq_div_mul]

/-- C5: counter derivation and serialization. For every non-negative
timestamp in milliseconds, the counter `Math.floor(timestamp / (1000 * 30))`
agrees with the spec's two-stage `floor(timestampMillis / 1000 / 30)`, and
the HMAC message built from it is exactly 8 bytes in big-endian order —
byte `i` is `counter / 256 ^ (7 - i) mod 256`, byte 0 the most
significant. -/
theorem c5_counter_derivation_serialization (t : Nat) :
    t / (1000 * 30) = t / 1000 / 30 ∧
    (counterToBytes (t / (1000 * 30))).length = 8 ∧
    counterToBytes (t / (1000 * 30)) =
      [t / (1000 * 30) / 256 ^ 7 % 256, t / (1000 * 30) / 256 ^ 6 % 256,
        t / (1000 * 30) / 256 ^ 5 % 256, t / (1000 * 30) / 256 ^ 4 % 256,
        t / (1000 * 30) / 256 ^ 3 % 256, t / (1000 * 30) / 256 ^ 2 % 256,
        t / (1000 * 30) / 256 ^ 1 % 256, t / (1000 * 30) % 256] := by
  refine ⟨(Nat.div_div_eq_div_mul t 1000 30).symm, ?_, ?_⟩
  · rw [counterToBytes_eq]
    rfl
  · rw [counterToBytes_eq]
    norm_num

/-- C6: verification correctness. Whenever code generation succeeds,
`verifyTOTP` accepts exactly the generated code: it returns `some true` on
the generated code, returns `some true` for a candidate iff the candidate
string-equals the generated code, and yields the value `some false` — not
an error — on any mismatched candidate. -/
theorem c6_verification (hmacFn : List Nat → List Nat → List Nat)
    (secret candidate code : List Char) (t : Nat)
    (h : generateTOTP hmacFn secret t = some code) :
    verifyTOTP hmacFn secret code t = some true ∧
    (verifyTOTP hmacFn secret candidate t = some true ↔ candidate = code) ∧
    (candidate ≠ code → verifyTOTP hmacFn secret candidate t = some false) := by
  unfold verifyTOTP
  rw [h]
  simp only [Option.map_some']
  refine ⟨by simp, by simp [eq_comm], ?_⟩
  intro hne
  simp [Ne.symm hne]

/-- C6 witness at a concrete secret, timestamp and HMAC function. -/
theorem c6_verification_witness :
    verifyTOTP (fun _ _ => List.replicate 20 0) ['B'] (List.replicate 6 '0') 0 = some true ∧
    (verifyTOTP (fun _ _ => List.replicate 20 0) ['B'] ['1'] 0 = some true ↔
      (['1'] : List Char) = List.replicate 6 '0') ∧
    ((['1'] : List Char) ≠ List.replicate 6 '0' →
      verifyTOTP (fun _ _ => List.replicate 20 0) ['B'] ['1'] 0 = some false) :=
  c6_verification (fun _ _ => List.replicate 20 0) ['B'] ['1'] (List.replicate 6 '0') 0
    (by decide)

/-- C7: fixed width. Whenever generation succeeds, the returned string has
exactly 6 characters, all decimal digits, and it is the left-zero-padded
decimal rendering of the dynamically truncated value reduced mod
1 000 000. -/
theorem c7_fixed_width (hmacFn : List Nat → List Nat → List Nat)
    (secret code : List Char) (t : Nat)
    (h : generateTOTP hmacFn secret t = some code) :
    code.length = 6 ∧ (∀ c ∈ code, c.isDigit = true) ∧
    ∃ key, base32Decode secret = some key ∧
      code = padStart6 (natToDecimal
        (dynamicTruncate (generateHMAC hmacFn key (t / (1000 * 30))) % 1000000)) := by
  refine ⟨generate_code_length hmacFn secret code t h, ?_,
    generate_code_shape hmacFn secret code t h⟩
  obtain ⟨key, -, hcode⟩ := generate_code_shape hmacFn secret code t h
  subst hcode
  intro c hc
  simp only [padStart6] at hc
  rcases List.mem_append.mp hc with hc | hc
  · rw [List.eq_of_mem_replicate hc]
    decide
  · exact natDecimalAux_isDigit _ _ c hc

/-- C7 witness at a concrete secret, timestamp and HMAC function. -/
theorem c7_fixed_width_witness :
    (List.replicate 6 '0').length = 6 ∧
    (∀ c ∈ List.replicate 6 '0', c.isDigit = true) ∧
    ∃ key, base32Decode ['B'] = some key ∧
      List.replicate 6 '0' = padStart6 (natToDecimal
        (dynamicTruncate (generateHMAC (fun _ _ => List.replicate 20 0) key
          (0 / (1000 * 30))) % 1000000)) :=
  c7_fixed_width (fun _ _ => List.replicate 20 0) ['B'] (List.replicate 6 '0') 0 (by decide)

/-- C8: window boundary. For every HMAC function, secret and pair of
timestamps in the same 30-second step (`t1 / 30000 = t2 / 30000`), the
generator produces the same result. -/
theorem c8_window_boundary (hmacFn : List Nat → List Nat → List Nat)
    (secret : List Char) (t1 t2 : Nat) (h : t1 / 30000 = t2 / 30000) :
    generateTOTP hmacFn secret t1 = generateTOTP hmacFn secret t2 := by
  rw [generateTOTP_eq, generateTOTP_eq]
  have h30 : t1 / (1000 * 30) = t2 / (1000 * 30) := by
    norm_num
    exact h
  rw [h30]

/-- C8 witness: the codes at t = 0 ms and t = 29999 ms agree. -/
theorem c8_window_boundary_witness :
    (0 : Nat) / 30000 = 29999 / 30000 ∧
    generateTOTP (fun _ _ => List.replicate 20 0) ['B'] 0 =
      generateTOTP (fun _ _ => List.replicate 20 0) ['B'] 29999 :=
  ⟨by decide, c8_window_boundary (fun _ _ => List.replicate 20 0) ['B'] 0 29999 (by decide)⟩

/-- C9: an `'='` that occurs before some non-`'='` character survives the
trailing-padding strip, is not in the lookup table, and therefore makes
`base32Decode` throw the invalid-encoding error. -/
theorem c9_equals_only_trailing (u v : List Char) (h : ∃ c ∈ v, c ≠ '=') :
    base32Decode (u ++ '=' :: v) = none := by
  obtain ⟨c, hcv, hcne⟩ := h
  have hmem : '=' ∈ stripTrailingEquals (u ++ '=' :: v) := by
    unfold stripTrailingEquals
    rw [List.mem_reverse]
    have hrev : (u ++ '=' :: v).reverse = v.reverse ++ '=' :: u.reverse := by
      simp
    rw [hrev]
    rw [List.dropWhile_append]
    have hne : (v.reverse.dropWhile fun x => x = '=') ≠ [] := by
      rw [Ne, List.dropWhile_eq_nil_iff]
      intro hall
      have := hall c (List.mem_reverse.mpr hcv)
      simp at this
      exact hcne this
    have hempty : (v.reverse.dropWhile fun x => x = '=').isEmpty = false := by
      rw [List.isEmpty_eq_false_iff_exists_mem]
      exact List.exists_mem_of_ne_nil _ hne
    rw [hempty]
    simp
  unfold base32Decode
  rw [decodeVals_eq_none_of_mem _ '=' hmem (by decide)]
  rfl

/-- C9 witness: `"=B"` has an `'='` before a non-`'='` and fails to decode. -/
theorem c9_equals_only_trailing_witness :
    (∃ c ∈ (['B'] : List Char), c ≠ '=') ∧
    base32Decode ([] ++ '=' :: ['B']) = none :=
  ⟨by decide, c9_equals_only_trailing [] ['B'] (by decide)⟩

/-- C10: whenever generation succeeds, any candidate whose length is not 6
is rejected with `some false`, because the generated code always has length
6 and verification is exact string equality. -/
theorem c10_wrong_length_rejected (hmacFn : List Nat → List Nat → List Nat)
    (secret candidate code : List Char) (t : Nat)
    (h : generateTOTP hmacFn secret t = some code) (hlen : candidate.length ≠ 6) :
    verifyTOTP hmacFn secret candidate t = some false := by
  have h6 := generate_code_length hmacFn secret code t h
  have hne : code ≠ candidate := fun hEq => hlen (hEq ▸ h6)
  unfold verifyTOTP
  rw [h]
  simp [hne]

/-- C10 witness: the 1-character candidate `"1"` is rejected. -/
theorem c10_wrong_length_rejected_witness :
    generateTOTP (fun _ _ => List.replicate 20 0) ['B'] 0 = some (List.replicate 6 '0') ∧
    (['1'] : List Char).length ≠ 6 ∧
    verifyTOTP (fun _ _ => List.replicate 20 0) ['B'] ['1'] 0 = some false :=
  ⟨by decide, by decide,
    c10_wrong_length_rejected (fun _ _ => List.replicate 20 0) ['B'] ['1']
      (List.replicate 6 '0') 0 (by decide) (by decide)⟩

end TOTP
